import Mathlib

/-!
Verification of the optima per-tick market-making engines.

This file shallowly embeds the three Python trader scripts of the repository:

* `src/trader.py` — the "sweep" engine: jsonpickle-carried per-product memory,
  fair-value estimation from book midpoint and a rolling trade-price window,
  and opportunistic crossing of the book subject to position limits.
* `src/prosperity-local/trader.py` — the symmetric market-maker (`mm` below)
  together with the `Logger` telemetry compressor.
* `src/prosperity-local/logs/trader2.py` — the KELP momentum / RAINFOREST_RESIN
  passive-banding engine (`t2` below), sharing the same `Logger`.

Conventions of the embedding:

* Python `int` becomes `Int`; Python `float` arithmetic (midpoints, averages,
  thresholds) is modelled as exact rational arithmetic over `ℚ`.
* Python dicts become association lists `List (key × value)` in insertion
  order; dict keys are unique in Python, and no theorem below depends on
  duplicate keys.
* `len` of a Python `str` becomes `String.length`; the JSON records emitted by
  `Logger` are pure ASCII (`json.dumps` runs with `ensure_ascii=True`), so
  character counts and byte counts agree.
* Exceptions become `Except` / `Option` results.
-/

/-- A resting limit order, `datamodel.Order`: signed quantity, positive = buy,
negative = sell. -/
structure Order where
  symbol : String
  price : Int
  quantity : Int
deriving DecidableEq, Repr

/-- One line of order-book depth, `datamodel.OrderDepth`: price → resting
quantity association lists.  Sell quantities are negative in the source
convention. -/
structure OrderDepth where
  buy_orders : List (Int × Int)
  sell_orders : List (Int × Int)
deriving DecidableEq, Repr

/-- A completed transaction, `datamodel.Trade`. -/
structure Trade where
  symbol : String
  price : Int
  quantity : Int
  buyer : String
  seller : String
  timestamp : Int
deriving DecidableEq, Repr

/-- `datamodel.Listing`. -/
structure Listing where
  symbol : String
  product : String
  denomination : String
deriving DecidableEq, Repr

/-- One conversion observation, `datamodel.ConversionObservation` (numeric
fields modelled as integers). -/
structure ConvObs where
  bidPrice : Int
  askPrice : Int
  transportFees : Int
  exportTariff : Int
  importTariff : Int
  sugarPrice : Int
  sunlightIndex : Int
deriving DecidableEq, Repr

/-- `datamodel.Observation`. -/
structure Observation where
  plainValueObservations : List (String × Int)
  conversionObservations : List (String × ConvObs)
deriving DecidableEq, Repr

/-- The per-tick snapshot handed to `Trader.run`, `datamodel.TradingState`. -/
structure TradingState where
  timestamp : Int
  traderData : String
  listings : List (String × Listing)
  order_depths : List (String × OrderDepth)
  own_trades : List (String × List Trade)
  market_trades : List (String × List Trade)
  position : List (String × Int)
  observations : Observation
deriving DecidableEq, Repr

/-- One hexadecimal digit, lower case, as produced by Python's `\uXXXX`
escapes. -/
def hexDigit (n : Nat) : Char :=
  if n < 10 then Char.ofNat (48 + n) else Char.ofNat (87 + n)

/-- Four hexadecimal digits. -/
def hex4 (n : Nat) : String :=
  String.mk [hexDigit (n / 4096 % 16), hexDigit (n / 256 % 16),
             hexDigit (n / 16 % 16), hexDigit (n % 16)]

/-- The `\uXXXX` escape of a character (surrogate pair above the BMP), as in
`json.dumps` with `ensure_ascii=True`. -/
def uEscape (c : Char) : String :=
  if c.toNat < 0x10000 then "\\u" ++ hex4 c.toNat
  else
    let v := c.toNat - 0x10000
    "\\u" ++ hex4 (0xd800 + v / 0x400) ++ "\\u" ++ hex4 (0xdc00 + v % 0x400)

/-- How `json.dumps` encodes one character inside a string literal: short
escapes for the two JSON metacharacters and the common control characters,
`\uXXXX` for the remaining characters outside the printable ASCII range
(`ensure_ascii=True`), and the character itself otherwise. -/
def escChar (c : Char) : String :=
  if c = '"' then "\\\""
  else if c = '\\' then "\\\\"
  else if c = '\n' then "\\n"
  else if c = '\r' then "\\r"
  else if c = '\t' then "\\t"
  else if c = '\x08' then "\\b"
  else if c = '\x0c' then "\\f"
  else if c.toNat < 0x20 ∨ 0x7e < c.toNat then uEscape c
  else String.mk [c]

/-- `escChar` mapped over a character list. -/
def escString : List Char → String
  | [] => ""
  | c :: cs => escChar c ++ escString cs

/-- A JSON string literal as emitted by `json.dumps`. -/
def jsonStr (s : String) : String :=
  "\"" ++ escString s.toList ++ "\""

/-- A character that `json.dumps` emits verbatim: printable ASCII other than
the quote and the backslash.  Such characters occupy exactly one byte of the
emitted record. -/
def PlainChar (c : Char) : Prop :=
  0x20 ≤ c.toNat ∧ c.toNat ≤ 0x7e ∧ c ≠ '"' ∧ c ≠ '\\'

instance (c : Char) : Decidable (PlainChar c) := by
  unfold PlainChar
  infer_instance

/-- The JSON values the `Logger` record is built from: integers, strings,
arrays and string-keyed objects. -/
inductive J where
  | i : Int → J
  | s : String → J
  | arr : List J → J
  | obj : List (String × J) → J
deriving Repr

mutual

/-- `json.dumps(value, separators=(",", ":"))`: compact separators, no
whitespace, `ensure_ascii=True`. -/
def dumps : J → String
  | .i n => toString n
  | .s t => jsonStr t
  | .arr xs => "[" ++ dumpsList xs ++ "]"
  | .obj fs => "\x7b" ++ dumpsFields fs ++ "\x7d"

/-- Comma-separated serialization of the elements of a JSON array. -/
def dumpsList : List J → String
  | [] => ""
  | [x] => dumps x
  | x :: y :: rest => dumps x ++ "," ++ dumpsList (y :: rest)

/-- Comma-separated serialization of the fields of a JSON object. -/
def dumpsFields : List (String × J) → String
  | [] => ""
  | [(k, v)] => jsonStr k ++ ":" ++ dumps v
  | (k, v) :: f :: rest => jsonStr k ++ ":" ++ dumps v ++ "," ++ dumpsFields (f :: rest)

end

/-- Python slicing `s[:k]` including the negative-index convention: a negative
`k` counts from the end of the string. -/
def pySlice (s : String) (k : Int) : String :=
  if 0 ≤ k then String.mk (s.toList.take k.toNat)
  else String.mk (s.toList.take ((s.length : Int) + k).toNat)

namespace Logger

/-- `Logger.truncate`: `value if len(value) <= max_length else
value[:max_length - 3] + "..."`. -/
def truncate (value : String) (maxLength : Int) : String :=
  if (value.length : Int) ≤ maxLength then value
  else pySlice value (maxLength - 3) ++ "..."

/-- `Logger.compress_listings`. -/
def compressListings (listings : List (String × Listing)) : J :=
  .arr (listings.map fun p =>
    .arr [.s p.2.symbol, .s p.2.product, .s p.2.denomination])

/-- An int-keyed Python dict under `json.dumps`: the keys are rendered as
decimal strings. -/
def intKeyObj (l : List (Int × Int)) : J :=
  .obj (l.map fun pq => (toString pq.1, .i pq.2))

/-- `Logger.compress_order_depths`. -/
def compressOrderDepths (ods : List (String × OrderDepth)) : J :=
  .obj (ods.map fun p => (p.1, .arr [intKeyObj p.2.buy_orders, intKeyObj p.2.sell_orders]))

/-- `Logger.compress_trades`. -/
def compressTrades (trades : List (String × List Trade)) : J :=
  .arr ((trades.map Prod.snd).flatten.map fun t =>
    .arr [.s t.symbol, .i t.price, .i t.quantity, .s t.buyer, .s t.seller, .i t.timestamp])

/-- `Logger.compress_observations`. -/
def compressObservations (obs : Observation) : J :=
  .arr [.obj (obs.plainValueObservations.map fun p => (p.1, .i p.2)),
        .obj (obs.conversionObservations.map fun p =>
          (p.1, .arr [.i p.2.bidPrice, .i p.2.askPrice, .i p.2.transportFees,
                      .i p.2.exportTariff, .i p.2.importTariff, .i p.2.sugarPrice,
                      .i p.2.sunlightIndex]))]

/-- `Logger.compress_orders`. -/
def compressOrders (orders : List (String × List Order)) : J :=
  .arr ((orders.map Prod.snd).flatten.map fun o => .arr [.s o.symbol, .i o.price, .i o.quantity])

/-- `Logger.compress_state`: the `trader_data` argument is the (possibly
truncated) incoming `state.traderData` token. -/
def compressState (state : TradingState) (traderData : String) : J :=
  .arr [.i state.timestamp, .s traderData, compressListings state.listings,
        compressOrderDepths state.order_depths, compressTrades state.own_trades,
        compressTrades state.market_trades,
        .obj (state.position.map fun p => (p.1, .i p.2)),
        compressObservations state.observations]

/-- The five-element record `Logger.flush` serializes: compressed state (with
the incoming token slot `tdIn`), compressed orders, conversions, the outgoing
token slot `tdOut`, and the accumulated log slot `logText`. -/
def recordJ (state : TradingState) (orders : List (String × List Order))
    (conversions : Int) (tdIn tdOut logText : String) : J :=
  .arr [compressState state tdIn, compressOrders orders, .i conversions,
        .s tdOut, .s logText]

/-- `base_length` in `Logger.flush`: the record measured with the three
variable-length fields replaced by empty strings. -/
def baseLen (state : TradingState) (orders : List (String × List Order))
    (conversions : Int) : Nat :=
  (dumps (recordJ state orders conversions "" "" "")).length

/-- `self.max_log_length`. -/
def maxLogLength : Int := 3750

/-- `max_item_length` in `Logger.flush`: the remaining budget floor-divided by
3 (Python `//` is floor division, so this is negative when the base record
already exceeds the budget). -/
def maxItemLen (state : TradingState) (orders : List (String × List Order))
    (conversions : Int) : Int :=
  Int.fdiv (maxLogLength - (baseLen state orders conversions : Int)) 3

/-- The record printed by `Logger.flush`: the three variable-length fields are
truncated to `max_item_length` independently and re-serialized. -/
def flushOutput (state : TradingState) (orders : List (String × List Order))
    (conversions : Int) (trader_data logText : String) : String :=
  dumps (recordJ state orders conversions
    (truncate state.traderData (maxItemLen state orders conversions))
    (truncate trader_data (maxItemLen state orders conversions))
    (truncate logText (maxItemLen state orders conversions)))

end Logger

/-! ## The sweep engine, `src/trader.py` -/

/-- `HISTORY_LENGTH`: capacity of the per-product rolling trade-price deque. -/
def HISTORY_LENGTH : Nat := 20

/-- `POSITION_LIMITS`: per-product hard position limits. -/
def POSITION_LIMITS : List (String × Int) :=
  [("KELP", 20), ("RAINFOREST_RESIN", 20)]

/-- Lookup in a string-keyed association list (Python dict access). -/
def lookupStr {α : Type} (m : List (String × α)) (k : String) : Option α :=
  (m.find? (fun p => p.1 == k)).map Prod.snd

/-- `position.get(product, 0)`. -/
def posGet (position : List (String × Int)) (k : String) : Int :=
  (lookupStr position k).getD 0

/-- `market_trades.get(product, [])`. -/
def tradesGet (mt : List (String × List Trade)) (product : String) : List Trade :=
  (lookupStr mt product).getD []

/-- Python dict assignment `m[k] = v`: overwrite in place, else append. -/
def setEntry {α : Type} (m : List (String × α)) (k : String) (v : α) :
    List (String × α) :=
  if (m.find? (fun p => p.1 == k)).isSome then
    m.map (fun p => if p.1 == k then (k, v) else p)
  else m ++ [(k, v)]

/-- `max(d.keys())` over a price → quantity dict (0 on the empty dict, an
unreachable case guarded by the callers). -/
def keyMax : List (Int × Int) → Int
  | [] => 0
  | (p, _) :: rest => rest.foldl (fun a q => max a q.1) p

/-- `min(d.keys())` over a price → quantity dict. -/
def keyMin : List (Int × Int) → Int
  | [] => 0
  | (p, _) :: rest => rest.foldl (fun a q => min a q.1) p

/-- `sum(prices) / len(prices)` over the rolling trade-price window. -/
def listAvg (l : List Int) : ℚ := ((l.sum : Int) : ℚ) / l.length

/-- Appending a batch of elements to a `deque(maxlen=cap)`: keep the last
`cap` elements of the concatenation. -/
def dequeExtend (cap : Nat) (l : List Int) (xs : List Int) : List Int :=
  let l2 := l ++ xs
  l2.drop (l2.length - cap)

/-- `max(bids.keys()) if bids else None`. -/
def bestBidOpt (bids : List (Int × Int)) : Option Int :=
  if bids.isEmpty then none else some (keyMax bids)

/-- `min(asks.keys()) if asks else None`. -/
def bestAskOpt (asks : List (Int × Int)) : Option Int :=
  if asks.isEmpty then none else some (keyMin asks)

/-- The product-specific constant default price: `100 if product == "KELP"
else 10`. -/
def sweepDefault (product : String) : ℚ :=
  if product = "KELP" then 100 else 10

/-- `book_fair = (best_bid + best_ask) / 2 if best_bid and best_ask else
default`.  Python truthiness: a missing side (`None`) *and* a best price equal
to `0` both fail the test, so a zero best price falls back to the default. -/
def bookFair (product : String) (bids asks : List (Int × Int)) : ℚ :=
  match bestBidOpt bids, bestAskOpt asks with
  | some b, some a =>
    if b ≠ 0 ∧ a ≠ 0 then ((b + a : Int) : ℚ) / 2 else sweepDefault product
  | _, _ => sweepDefault product

/-- `spread = (best_ask - best_bid) if best_ask and best_bid else 100`, with
the same truthiness convention as `bookFair`. -/
def sweepSpread (bids asks : List (Int × Int)) : Int :=
  match bestBidOpt bids, bestAskOpt asks with
  | some b, some a => if b ≠ 0 ∧ a ≠ 0 then a - b else 100
  | _, _ => 100

/-- `fair_price`: the average of `book_fair` and the rolling trade average
when the window is non-empty, and `book_fair` alone otherwise. -/
def fairPrice (product : String) (bids asks : List (Int × Int))
    (window : List Int) : ℚ :=
  if window = [] then bookFair product bids asks
  else (bookFair product bids asks + listAvg window) / 2

/-- Insertion into a price-ascending list. -/
def insertAsc (x : Int × Int) : List (Int × Int) → List (Int × Int)
  | [] => [x]
  | y :: ys => if x.1 ≤ y.1 then x :: y :: ys else y :: insertAsc x ys

/-- `sorted(d.items())`: ascending by price (keys are unique). -/
def sortAsc (l : List (Int × Int)) : List (Int × Int) := l.foldr insertAsc []

/-- `sorted(d.items(), reverse=True)`: descending by price. -/
def sortDesc (l : List (Int × Int)) : List (Int × Int) := (sortAsc l).reverse

/-- The ask-sweeping buy loop of `Trader.run` in `src/trader.py`: for each ask
level strictly below `fair − buy_threshold`, buy
`min(−ask_volume, limit − position)` when that volume is positive, updating
the running position.  Returns the emitted orders and the final running
position. -/
def sweepBuyLoop (product : String) (fair thr : ℚ) (limit : Int) :
    List (Int × Int) → Int → List Order × Int
  | [], pos => ([], pos)
  | (price, vol) :: rest, pos =>
    if (price : ℚ) < fair - thr then
      let volume := min (-vol) (limit - pos)
      if 0 < volume then
        let res := sweepBuyLoop product fair thr limit rest (pos + volume)
        (⟨product, price, volume⟩ :: res.1, res.2)
      else
        sweepBuyLoop product fair thr limit rest pos
    else sweepBuyLoop product fair thr limit rest pos

/-- The bid-sweeping sell loop: for each bid level strictly above
`fair + sell_threshold`, sell `min(bid_volume, position + limit)` when that
volume is positive. -/
def sweepSellLoop (product : String) (fair thr : ℚ) (limit : Int) :
    List (Int × Int) → Int → List Order × Int
  | [], pos => ([], pos)
  | (price, vol) :: rest, pos =>
    if fair + thr < (price : ℚ) then
      let volume := min vol (pos + limit)
      if 0 < volume then
        let res := sweepSellLoop product fair thr limit rest (pos - volume)
        (⟨product, price, -volume⟩ :: res.1, res.2)
      else
        sweepSellLoop product fair thr limit rest pos
    else sweepSellLoop product fair thr limit rest pos

/-- All orders the sweep engine emits for one product in one tick: thresholds
are `0.5` on a tight spread (`< 5`) and `1` otherwise, asks are scanned in
ascending and bids in descending price order, and the sell loop starts from
the position left by the buy loop. -/
def sweepProductOrders (product : String) (limit : Int)
    (bids asks : List (Int × Int)) (window : List Int) (pos : Int) :
    List Order :=
  let fair := fairPrice product bids asks window
  let spread := sweepSpread bids asks
  let buyThreshold : ℚ := if spread < 5 then 1/2 else 1
  let sellThreshold : ℚ := if spread < 5 then 1/2 else 1
  let bres := sweepBuyLoop product fair buyThreshold limit (sortAsc asks) pos
  let sres := sweepSellLoop product fair sellThreshold limit (sortDesc bids) bres.2
  bres.1 ++ sres.1

/-- The per-product carry of the sweep engine: the rolling trade-price window
and the optimistic cash/inventory ledger. -/
structure SweepMem where
  recentPrices : List Int
  cash : Int
  inventory : Int
deriving DecidableEq, Repr

/-- Net signed quantity of a list of orders. -/
def sumQty (orders : List Order) : Int := (orders.map Order.quantity).sum

/-- Net signed cost (price times signed quantity) of a list of orders. -/
def sumCost (orders : List Order) : Int :=
  (orders.map fun o => o.price * o.quantity).sum

/-- One product of the sweep engine's tick: look up the position limit
(`POSITION_LIMITS[product]` raises `KeyError` — `none` — on an unknown
product), extend the rolling window with this tick's market-trade prices, and
emit the sweep orders.  The source updates `cash`/`inventory` one fill at a
time inside the loops; the aggregate effect is `cash − Σ price·qty` and
`inventory + Σ qty` over the emitted signed quantities. -/
def sweepRunProduct (product : String) (depth : OrderDepth)
    (tradePrices : List Int) (mem : SweepMem) (pos : Int) :
    Option (List Order × SweepMem) :=
  match lookupStr POSITION_LIMITS product with
  | none => none
  | some limit =>
    let window := dequeExtend HISTORY_LENGTH mem.recentPrices tradePrices
    let orders := sweepProductOrders product limit depth.buy_orders depth.sell_orders window pos
    some (orders, ⟨window, mem.cash - sumCost orders, mem.inventory + sumQty orders⟩)

/-- `memory[product]`, after the `if product not in memory:` initialization:
a product absent from the memory dict starts from the fresh entry
`(deque(), 0, 0)`. -/
def memGet (memory : List (String × SweepMem)) (product : String) : SweepMem :=
  (lookupStr memory product).getD ⟨[], 0, 0⟩

/-- The sweep engine's loop over `state.order_depths`, threading the memory
dict; a missing position-limit entry aborts the tick (`KeyError`). -/
def sweepTickLoop (state : TradingState) :
    List (String × OrderDepth) → List (String × SweepMem) →
    Option (List (String × List Order) × List (String × SweepMem))
  | [], memory => some ([], memory)
  | (product, depth) :: rest, memory =>
    let mem := memGet memory product
    let tradePrices := (tradesGet state.market_trades product).map Trade.price
    match sweepRunProduct product depth tradePrices mem (posGet state.position product) with
    | none => none
    | some (orders, mem') =>
      match sweepTickLoop state rest (setEntry memory product mem') with
      | none => none
      | some (result, memory'') => some ((product, orders) :: result, memory'')

/-- The body of `Trader.run` in `src/trader.py`, given an already
reconstructed memory: the result maps every product to its orders (possibly
empty), conversions is 0, and the outgoing token is the final memory (the
source serializes it with `jsonpickle.encode`, which is injective on this
data; the token is modelled by its content). -/
def sweepFromMemory (memory : List (String × SweepMem)) (state : TradingState) :
    Except Unit (List (String × List Order) × Int × List (String × SweepMem)) :=
  match sweepTickLoop state state.order_depths memory with
  | none => Except.error ()
  | some (result, memory') => Except.ok (result, 0, memory')

/-- `Trader.run` of `src/trader.py`.  `jsonpickle.decode` is an external
library, so the parser is a parameter; the source calls it with no exception
handler whenever `state.traderData` is truthy (non-empty), so a parse failure
(`Except.error`) propagates out of `run` unchanged.  An empty token skips the
parser and starts from the empty memory `{}`. -/
def sweepRun (decode : String → Except Unit (List (String × SweepMem)))
    (state : TradingState) :
    Except Unit (List (String × List Order) × Int × List (String × SweepMem)) :=
  if state.traderData = "" then sweepFromMemory [] state
  else
    match decode state.traderData with
    | Except.error e => Except.error e
    | Except.ok memory => sweepFromMemory memory state

/-! ## The symmetric market-maker, `src/prosperity-local/trader.py` -/

/-- `self.POSITION_LIMIT` of the symmetric market-maker. -/
def MM_POSITION_LIMIT : Int := 20

/-- One product of `Trader.run` in `src/prosperity-local/trader.py`: skip a
one-sided book; when the spread exceeds 1, quote a buy of up to 3 one tick
above the best bid (if below the limit) and a sell of up to 3 one tick below
the best ask (if above the short limit). -/
def mmRunProduct (symbol : String) (depth : OrderDepth) (position : Int) :
    List Order :=
  if depth.buy_orders.isEmpty ∨ depth.sell_orders.isEmpty then []
  else
    let best_bid := keyMax depth.buy_orders
    let best_ask := keyMin depth.sell_orders
    let spread := best_ask - best_bid
    if 1 < spread then
      (if position < MM_POSITION_LIMIT then
        [⟨symbol, best_bid + 1, min 3 (MM_POSITION_LIMIT - position)⟩]
       else []) ++
      (if -MM_POSITION_LIMIT < position then
        [⟨symbol, best_ask - 1, -(min 3 (MM_POSITION_LIMIT + position))⟩]
       else [])
    else []

/-- The market-maker's loop over `state.order_depths`; only products with a
non-empty order list enter the result. -/
def mmRunLoop (state : TradingState) :
    List (String × OrderDepth) → List (String × List Order)
  | [] => []
  | (symbol, depth) :: rest =>
    let orders := mmRunProduct symbol depth (posGet state.position symbol)
    if orders.isEmpty then mmRunLoop state rest
    else (symbol, orders) :: mmRunLoop state rest

/-- `Trader.run` of `src/prosperity-local/trader.py`: orders, conversions 0,
empty outgoing token. -/
def mmRun (state : TradingState) : List (String × List Order) × Int × String :=
  (mmRunLoop state state.order_depths, 0, "")

/-! ## The KELP/RESIN engine, `src/prosperity-local/logs/trader2.py` -/

/-- `Trader.POSITION_LIMIT` of trader2. -/
def T2_POSITION_LIMIT : Int := 20

/-- Appending one element to a `deque(maxlen=cap)` of rationals. -/
def dequeAppQ (cap : Nat) (l : List ℚ) (x : ℚ) : List ℚ :=
  let l2 := l ++ [x]
  l2.drop (l2.length - cap)

/-- `sum(xs) / len(xs)` over the mid-price deque. -/
def qAvg (l : List ℚ) : ℚ := l.sum / l.length

/-- The RESIN bid-band loop: for each configured buy level, if below the
limit and the price was not used this tick, buy `min(size, limit − pos)`,
record the price and advance the running position. -/
def resinBuys (symbol : String) (size : Int) :
    List Int → Int → List Int → List Order × Int × List Int
  | [], pos, used => ([], pos, used)
  | price :: rest, pos, used =>
    if pos < T2_POSITION_LIMIT ∧ price ∉ used then
      let qty := min size (T2_POSITION_LIMIT - pos)
      let res := resinBuys symbol size rest (pos + qty) (price :: used)
      (⟨symbol, price, qty⟩ :: res.1, res.2)
    else
      resinBuys symbol size rest pos used

/-- The RESIN ask-band loop, symmetric against the short side of the limit. -/
def resinSells (symbol : String) (size : Int) :
    List Int → Int → List Int → List Order × Int × List Int
  | [], pos, used => ([], pos, used)
  | price :: rest, pos, used =>
    if -T2_POSITION_LIMIT < pos ∧ price ∉ used then
      let qty := min size (T2_POSITION_LIMIT + pos)
      let res := resinSells symbol size rest (pos - qty) (price :: used)
      (⟨symbol, price, -qty⟩ :: res.1, res.2)
    else
      resinSells symbol size rest pos used

/-- One product of `Trader.run` in trader2: skip one-sided books; KELP runs
the horizon unwind after timestamp 950000 and otherwise the mid-price
momentum rule (only once ten mid prices accumulated) plus the inventory
relief quotes; RAINFOREST_RESIN runs the horizon unwind or the
spread-adaptive passive bands.  Returns the orders, the updated KELP
mid-price deque, and the updated per-tick used-price set. -/
def t2RunProduct (timestamp : Int) (symbol : String) (depth : OrderDepth)
    (pos : Int) (kelpMids : List ℚ) (used : List Int) :
    List Order × List ℚ × List Int :=
  if depth.buy_orders.isEmpty ∨ depth.sell_orders.isEmpty then
    ([], kelpMids, used)
  else
    let best_bid := keyMax depth.buy_orders
    let best_ask := keyMin depth.sell_orders
    let mid_price : ℚ := ((best_bid + best_ask : Int) : ℚ) / 2
    let spread := best_ask - best_bid
    if symbol = "KELP" then
      let mids := dequeAppQ 50 kelpMids mid_price
      if 950000 < timestamp then
        ((if 0 < pos then [⟨symbol, best_ask, -pos⟩]
          else if pos < 0 then [⟨symbol, best_bid, -pos⟩]
          else []), mids, used)
      else if 10 ≤ mids.length then
        let avg := qAvg mids
        let delta := mid_price - avg
        let momentum :=
          if delta < -4 ∧ pos < T2_POSITION_LIMIT then
            [⟨symbol, best_bid + 1, min 5 (T2_POSITION_LIMIT - pos)⟩]
          else if 4 < delta ∧ -T2_POSITION_LIMIT < pos then
            [⟨symbol, best_ask - 1, -(min 5 (T2_POSITION_LIMIT + pos))⟩]
          else []
        let relief :=
          if 15 < pos then [⟨symbol, best_ask - 3, -5⟩]
          else if pos < -15 then [⟨symbol, best_bid + 3, 5⟩]
          else []
        (momentum ++ relief, mids, used)
      else ([], mids, used)
    else if symbol = "RAINFOREST_RESIN" then
      if 950000 < timestamp then
        ((if 0 < pos then [⟨symbol, best_ask, -pos⟩]
          else if pos < 0 then [⟨symbol, best_bid, -pos⟩]
          else []), kelpMids, used)
      else
        let cfg : List Int × List Int × Int :=
          if 10 ≤ spread then ([9995, 9996], [10004, 10005], 8)
          else if 6 ≤ spread then ([9996, 9997], [10003, 10004], 5)
          else ([9998], [10002], 3)
        let bres := resinBuys symbol cfg.2.2 cfg.1 pos used
        let sres := resinSells symbol cfg.2.2 cfg.2.1 bres.2.1 bres.2.2
        (bres.1 ++ sres.1, kelpMids, sres.2.2)
    else ([], kelpMids, used)

/-- The instance state of trader2's `Trader` object, which survives across
ticks *outside* the `trader_data` token (trader2 always returns an empty
token): the KELP mid-price deque and the residual per-tick RESIN price set. -/
structure T2State where
  kelpMidPrices : List ℚ
  lastResinOrderPrices : List Int
deriving DecidableEq, Repr

/-- trader2's loop over `state.order_depths`, threading the deque and the
used-price set; only products with a non-empty order list enter the result. -/
def t2Loop (timestamp : Int) (position : List (String × Int)) :
    List (String × OrderDepth) → List ℚ → List Int →
    List (String × List Order) × List ℚ × List Int
  | [], mids, used => ([], mids, used)
  | (symbol, depth) :: rest, mids, used =>
    let r := t2RunProduct timestamp symbol depth (posGet position symbol) mids used
    let rr := t2Loop timestamp position rest r.2.1 r.2.2
    ((if r.1.isEmpty then rr.1 else (symbol, r.1) :: rr.1), rr.2.1, rr.2.2)

/-- `Trader.run` of trader2: `self.last_resin_order_prices.clear()` resets the
per-tick price set before the loop (hence the literal `[]`), conversions is 0
and the outgoing token is the empty string.  The final component is the
instance state left for the next tick. -/
def t2Run (tr : T2State) (state : TradingState) :
    List (String × List Order) × Int × String × T2State :=
  let r := t2Loop state.timestamp state.position state.order_depths tr.kelpMidPrices []
  (r.1, 0, "", ⟨r.2.1, r.2.2⟩)

/-! ## Concrete fixtures used by witnesses and counterexamples -/

/-- A snapshot with every collection empty. -/
def emptyState : TradingState := ⟨0, "", [], [], [], [], [], ⟨[], []⟩⟩

/-- 2000 backslashes: a string whose JSON encoding doubles in length. -/
def bsString : String := String.mk (List.replicate 2000 '\\')

/-- A snapshot whose incoming token is `bsString`. -/
def escapeCexState : TradingState := { emptyState with traderData := bsString }

/-- A 4000-character listing symbol, making the base record alone exceed the
telemetry budget. -/
def longListingSymbol : String := String.mk (List.replicate 4000 'a')

/-- A snapshot carrying the oversized listing. -/
def baseCexState : TradingState :=
  { emptyState with listings := [("A", ⟨longListingSymbol, "A", "SEASHELLS"⟩)] }

/-- A parser that fails on every token — the behavior of `jsonpickle.decode`
on input that is not valid JSON (for example the literal `"garbage"`). -/
def failingDecode : String → Except Unit (List (String × SweepMem)) :=
  fun _ => Except.error ()

/-- A snapshot whose incoming token is non-empty but unparseable. -/
def garbageState : TradingState := { emptyState with traderData := "garbage" }

/-- A one-product KELP book used by the determinism counterexample. -/
def kelpDepth : OrderDepth := ⟨[(99, 5)], [(101, -5)]⟩

/-- The common snapshot of the determinism counterexample. -/
def c8Snapshot : TradingState :=
  { emptyState with timestamp := 1000, order_depths := [("KELP", kelpDepth)] }

/-- Nine mid prices of 90: the tick's mid of 100 reads as upward momentum. -/
def c8StateA : T2State := ⟨List.replicate 9 (90 : ℚ), []⟩

/-- Nine mid prices of 100: the tick's mid of 100 reads as no momentum. -/
def c8StateB : T2State := ⟨List.replicate 9 (100 : ℚ), []⟩

/-- The price levels of a list of orders. -/
def pricesOf (orders : List Order) : List Int := orders.map Order.price

/-- Unfolding lemma: the length of a string built from a character list. -/
theorem length_mk (l : List Char) : (String.mk l).length = l.length := rfl

/-- Unfolding lemma: `toList` is the underlying data of a string. -/
theorem toList_eq_data (s : String) : s.toList = s.data := rfl

/-- Unfolding lemma: a string's length is the length of its data. -/
theorem data_length (s : String) : s.data.length = s.length := rfl

/-- The length of `pySlice` for a nonnegative slice bound. -/
theorem pySlice_length_of_nonneg (s : String) (k : Int) (hk : 0 ≤ k) :
    (pySlice s k).length = min k.toNat s.length := by
  unfold pySlice
  rw [if_pos hk, length_mk, List.length_take, toList_eq_data, data_length]

/-- Characters of a nonnegative-bound slice come from the original string. -/
theorem pySlice_mem_of_nonneg (s : String) (k : Int) (hk : 0 ≤ k) :
    ∀ c ∈ (pySlice s k).toList, c ∈ s.toList := by
  intro c hc
  simp [pySlice, hk] at hc
  exact List.mem_of_mem_take hc

/-- C3 counterexample: `Logger.truncate "abcd" 2` is the 6-character string
`"abc..."`, which is longer than the 2-character budget — the claim's bound
`length ≤ budget` fails for budgets below 3, because the Python slice
`value[:budget - 3]` wraps around to the end of the string. -/
theorem truncate_budget_cex :
    Logger.truncate "abcd" 2 = "abc..." ∧
      ¬ ((Logger.truncate "abcd" 2).length ≤ 2) := by
  constructor <;> decide

/-- C3 (amended): for every string and every budget of at least 3, `truncate`
returns the string unchanged when it fits the budget, and otherwise returns
the first `budget − 3` characters — a proper prefix — followed by the
3-character marker `"..."`, for a result of exactly `budget` characters. -/
theorem truncate_spec (value : String) (budget : Int) (h3 : 3 ≤ budget) :
    ((value.length : Int) ≤ budget → Logger.truncate value budget = value) ∧
    (budget < (value.length : Int) →
      Logger.truncate value budget =
        String.mk (value.toList.take (budget - 3).toNat) ++ "..." ∧
      (String.mk (value.toList.take (budget - 3).toNat)).length < value.length ∧
      (Logger.truncate value budget).length = budget.toNat) := by
  constructor
  · intro h
    simp [Logger.truncate, h]
  · intro h
    have hnb : ¬ ((value.length : Int) ≤ budget) := by omega
    have hk : 0 ≤ budget - 3 := by omega
    have hlen : value.toList.length = value.length := rfl
    refine ⟨by simp [Logger.truncate, hnb, pySlice, hk], ?_, ?_⟩
    · rw [length_mk, List.length_take, toList_eq_data, data_length]
      omega
    · unfold Logger.truncate
      rw [if_neg hnb, String.length_append, pySlice_length_of_nonneg value _ hk]
      have hdots : ("..." : String).length = 3 := rfl
      omega

/-- Witness for C3: the two branches of `truncate_spec` evaluated at concrete
inputs — an in-budget string is unchanged, an oversized one keeps its first
`budget − 3` characters plus the marker. -/
theorem truncate_spec_witness :
    Logger.truncate "ab" 5 = "ab" ∧
      Logger.truncate "abcdefgh" 5 =
        String.mk ("abcdefgh".toList.take ((5 : Int) - 3).toNat) ++ "..." :=
  ⟨(truncate_spec "ab" 5 (by decide)).1 (by decide),
   ((truncate_spec "abcdefgh" 5 (by decide)).2 (by decide)).1⟩

/-- A plain character encodes as itself under `json.dumps`. -/
theorem escChar_plain {c : Char} (h : PlainChar c) : escChar c = String.mk [c] := by
  obtain ⟨h1, h2, hq, hb⟩ := h
  have hn : c ≠ '\n' := by rintro rfl; exact absurd h1 (by decide)
  have hr : c ≠ '\r' := by rintro rfl; exact absurd h1 (by decide)
  have ht : c ≠ '\t' := by rintro rfl; exact absurd h1 (by decide)
  have h8 : c ≠ '\x08' := by rintro rfl; exact absurd h1 (by decide)
  have hc : c ≠ '\x0c' := by rintro rfl; exact absurd h1 (by decide)
  have hrange : ¬ (c.toNat < 0x20 ∨ 0x7e < c.toNat) := by omega
  simp only [escChar, if_neg hq, if_neg hb, if_neg hn, if_neg hr, if_neg ht,
    if_neg h8, if_neg hc, if_neg hrange]

/-- A list of plain characters encodes without expansion. -/
theorem escString_length_plain (l : List Char) (h : ∀ c ∈ l, PlainChar c) :
    (escString l).length = l.length := by
  induction l with
  | nil => rfl
  | cons c cs ih =>
    have ih' := ih (fun x hx => h x (List.mem_cons_of_mem _ hx))
    rw [escString, String.length_append, escChar_plain (h c (List.mem_cons_self _ _)),
      length_mk, ih']
    simp only [List.length_cons, List.length_nil]
    omega

/-- A JSON string literal of plain characters costs exactly two bytes beyond
its content. -/
theorem jsonStr_length_plain (s : String) (h : ∀ c ∈ s.toList, PlainChar c) :
    (jsonStr s).length = s.length + 2 := by
  rw [jsonStr, String.length_append, String.length_append,
    escString_length_plain _ h, toList_eq_data, data_length]
  have hq : ("\"" : String).length = 1 := rfl
  omega

/-- Unfolding lemma: `toList` distributes over string append. -/
theorem toList_append (a b : String) : (a ++ b).toList = a.toList ++ b.toList := rfl

/-- Characters of a Python slice come from the original string. -/
theorem pySlice_mem (s : String) (k : Int) :
    ∀ c ∈ (pySlice s k).toList, c ∈ s.toList := by
  intro c hc
  unfold pySlice at hc
  split at hc <;> exact List.mem_of_mem_take hc

/-- Truncation preserves plainness: the kept prefix comes from the original
field and the marker consists of dots. -/
theorem truncate_plain (v : String) (m : Int) (h : ∀ c ∈ v.toList, PlainChar c) :
    ∀ c ∈ (Logger.truncate v m).toList, PlainChar c := by
  intro c hc
  unfold Logger.truncate at hc
  split at hc
  · exact h c hc
  · rw [toList_append] at hc
    rcases List.mem_append.mp hc with h1 | h2
    · exact h c (pySlice_mem v _ c h1)
    · have hdots : ("..." : String).toList = ['.', '.', '.'] := rfl
      rw [hdots] at h2
      have : c = '.' := by simpa using h2
      subst this
      decide

/-- A field truncated to a budget of at least 3 fits the budget. -/
theorem truncate_length_le (v : String) (m : Int) (hm : 3 ≤ m) :
    ((Logger.truncate v m).length : Int) ≤ m := by
  by_cases h : (v.length : Int) ≤ m
  · simp only [Logger.truncate, if_pos h]
    exact h
  · simp only [Logger.truncate, if_neg h]
    rw [String.length_append, pySlice_length_of_nonneg v _ (by omega)]
    have hd : ("..." : String).length = 3 := rfl
    omega

/-- The serialized record's length is the base length (variable fields empty)
plus the JSON-encoded lengths of the three variable fields: the fields occupy
three fixed string slots of the five-element record. -/
theorem dumps_record_length (state : TradingState)
    (orders : List (String × List Order)) (c : Int) (a b d : String) :
    (dumps (Logger.recordJ state orders c a b d)).length + 6 =
      (dumps (Logger.recordJ state orders c "" "" "")).length +
        (jsonStr a).length + (jsonStr b).length + (jsonStr d).length := by
  have h0 : (jsonStr "").length = 2 := rfl
  simp only [Logger.recordJ, Logger.compressState, dumps, dumpsList,
    String.length_append]
  omega

/-- C2 (amended): the record emitted by `Logger.flush` is at most
`max_log_length = 3750` bytes *provided* the base record (variable fields
empty) is at most 3741 bytes — so the per-field budget is at least 3 — and
the three variable-length fields (incoming token, outgoing token, log text)
consist of plain printable-ASCII characters, which JSON-encode one byte per
character.  The counterexample `flush_budget_cex` shows both provisos are
necessary. -/
theorem flush_budget (state : TradingState) (orders : List (String × List Order))
    (conversions : Int) (trader_data logText : String)
    (hbase : Logger.baseLen state orders conversions ≤ 3741)
    (h1 : ∀ c ∈ state.traderData.toList, PlainChar c)
    (h2 : ∀ c ∈ trader_data.toList, PlainChar c)
    (h3 : ∀ c ∈ logText.toList, PlainChar c) :
    (Logger.flushOutput state orders conversions trader_data logText).length ≤ 3750 := by
  have hfd : Logger.maxItemLen state orders conversions =
      (3750 - (Logger.baseLen state orders conversions : Int)) / 3 := by
    unfold Logger.maxItemLen Logger.maxLogLength
    exact Int.fdiv_eq_ediv _ (by omega)
  set m := Logger.maxItemLen state orders conversions with hmdef
  have hm3 : 3 ≤ m := by rw [hfd]; omega
  have e1 := jsonStr_length_plain _ (truncate_plain state.traderData m h1)
  have e2 := jsonStr_length_plain _ (truncate_plain trader_data m h2)
  have e3 := jsonStr_length_plain _ (truncate_plain logText m h3)
  have l1 := truncate_length_le state.traderData m hm3
  have l2 := truncate_length_le trader_data m hm3
  have l3 := truncate_length_le logText m hm3
  have hadd := dumps_record_length state orders conversions
    (Logger.truncate state.traderData m) (Logger.truncate trader_data m)
    (Logger.truncate logText m)
  have hBdef : (dumps (Logger.recordJ state orders conversions "" "" "")).length
      = Logger.baseLen state orders conversions := rfl
  unfold Logger.flushOutput
  rw [← hmdef]
  omega

/-- Witness for C2 (amended): the all-empty snapshot satisfies both provisos
and its record fits the budget. -/
theorem flush_budget_witness :
    Logger.baseLen emptyState [] 0 ≤ 3741 ∧
      (Logger.flushOutput emptyState [] 0 "" "").length ≤ 3750 :=
  ⟨by decide,
   flush_budget emptyState [] 0 "" "" (by decide) (by decide) (by decide) (by decide)⟩

/-- `escString` is length-additive across concatenation. -/
theorem escString_length_append (l1 l2 : List Char) :
    (escString (l1 ++ l2)).length = (escString l1).length + (escString l2).length := by
  induction l1 with
  | nil =>
    rw [List.nil_append]
    have h0 : (escString []).length = 0 := rfl
    omega
  | cons c cs ih =>
    rw [List.cons_append, escString, escString, String.length_append,
      String.length_append, ih]
    omega

/-- A run of backslashes JSON-encodes at two bytes per character. -/
theorem escString_replicate_bs (n : Nat) :
    (escString (List.replicate n '\\')).length = 2 * n := by
  induction n with
  | zero => rfl
  | succ k ih =>
    rw [List.replicate_succ, escString, String.length_append, ih]
    have h2 : (escChar '\\').length = 2 := by decide
    omega

/-- A run of `'a'`s JSON-encodes at one byte per character. -/
theorem escString_replicate_a (n : Nat) :
    (escString (List.replicate n 'a')).length = n := by
  induction n with
  | zero => rfl
  | succ k ih =>
    rw [List.replicate_succ, escString, String.length_append, ih]
    have h1 : (escChar 'a').length = 1 := by decide
    omega

/-- C2 counterexample: `Logger.flush` can emit records far beyond
`max_log_length = 3750` bytes.  First input: all three variable fields are
2000 backslashes — each is truncated to the 1236-byte per-field budget, but
every backslash JSON-encodes as two bytes, so the record is 7449 bytes.
Second input: a 4000-character listing symbol makes the *base* record alone
exceed the budget, which no truncation of the variable fields can repair. -/
theorem flush_budget_cex :
    3750 < (Logger.flushOutput escapeCexState [] 0 bsString bsString).length ∧
      3750 < (Logger.flushOutput baseCexState [] 0 "" "").length := by
  constructor
  · have hbs_len : bsString.length = 2000 := by
      rw [bsString, length_mk, List.length_replicate]
    have hm : Logger.maxItemLen escapeCexState [] 0 = 1236 := by decide
    have htrunc : Logger.truncate bsString 1236 =
        String.mk (List.replicate 1233 '\\') ++ "..." := by
      unfold Logger.truncate
      rw [if_neg (by rw [hbs_len]; decide)]
      unfold pySlice
      rw [if_pos (by decide)]
      have hdata : bsString.toList = List.replicate 2000 '\\' := rfl
      rw [hdata]
      norm_num [List.take_replicate]
      have ht : ((1233 : Int)).toNat = 1233 := rfl
      rw [ht]
    have hjson : (jsonStr (Logger.truncate bsString 1236)).length = 2471 := by
      rw [htrunc, jsonStr, String.length_append, String.length_append,
        toList_append]
      have hdots : ("..." : String).toList = ['.', '.', '.'] := rfl
      have hrep : (String.mk (List.replicate 1233 '\\')).toList =
          List.replicate 1233 '\\' := rfl
      rw [hrep, hdots, escString_length_append, escString_replicate_bs]
      have h3 : (escString ['.', '.', '.']).length = 3 := by decide
      have hq : ("\"" : String).length = 1 := rfl
      omega
    have hadd := dumps_record_length escapeCexState [] 0
      (Logger.truncate bsString 1236) (Logger.truncate bsString 1236)
      (Logger.truncate bsString 1236)
    have hB : (dumps (Logger.recordJ escapeCexState [] 0 "" "" "")).length = 42 := by
      decide
    have hst : escapeCexState.traderData = bsString := rfl
    unfold Logger.flushOutput
    rw [hm, hst]
    omega
  · have hjson2 : (jsonStr longListingSymbol).length = 4002 := by
      rw [jsonStr, String.length_append, String.length_append]
      have h1 : longListingSymbol.toList = List.replicate 4000 'a' := rfl
      rw [h1, escString_replicate_a]
      have hq : ("\"" : String).length = 1 := rfl
      omega
    have key : ∀ t1 t2 t3 : String,
        3750 < (dumps (Logger.recordJ baseCexState [] 0 t1 t2 t3)).length := by
      intro t1 t2 t3
      simp only [Logger.recordJ, Logger.compressState, baseCexState, emptyState,
        Logger.compressListings, List.map_cons, List.map_nil, dumps, dumpsList,
        String.length_append]
      omega
    unfold Logger.flushOutput
    exact key _ _ _

/-- With both sides non-empty and both best prices nonzero (truthy), the book
fair is the midpoint. -/
theorem bookFair_of_avail (product : String) (bids asks : List (Int × Int))
    (hb : bids ≠ []) (ha : asks ≠ []) (hb0 : keyMax bids ≠ 0) (ha0 : keyMin asks ≠ 0) :
    bookFair product bids asks = ((keyMax bids + keyMin asks : Int) : ℚ) / 2 := by
  have hbe : bids.isEmpty = false := by
    cases bids with
    | nil => exact absurd rfl hb
    | cons x l => rfl
  have hae : asks.isEmpty = false := by
    cases asks with
    | nil => exact absurd rfl ha
    | cons x l => rfl
  simp [bookFair, bestBidOpt, bestAskOpt, hbe, hae, hb0, ha0]

/-- With an empty side or a zero best price (falsy), the book fair is the
constant default. -/
theorem bookFair_of_unavail (product : String) (bids asks : List (Int × Int))
    (h : bids = [] ∨ asks = [] ∨ keyMax bids = 0 ∨ keyMin asks = 0) :
    bookFair product bids asks = sweepDefault product := by
  unfold bookFair bestBidOpt bestAskOpt
  by_cases hbe : bids = []
  · simp [hbe]
  · by_cases hae : asks = []
    · simp [hbe, hae]
    · rcases h with h | h | h | h
      · exact absurd h hbe
      · exact absurd h hae
      · simp [hbe, hae, h]
      · simp [hbe, hae, h]

/-- With an empty side or a zero best price, the spread is replaced by the
constant 100. -/
theorem sweepSpread_of_unavail (bids asks : List (Int × Int))
    (h : bids = [] ∨ asks = [] ∨ keyMax bids = 0 ∨ keyMin asks = 0) :
    sweepSpread bids asks = 100 := by
  unfold sweepSpread bestBidOpt bestAskOpt
  by_cases hbe : bids = []
  · simp [hbe]
  · by_cases hae : asks = []
    · simp [hbe, hae]
    · rcases h with h | h | h | h
      · exact absurd h hbe
      · exact absurd h hae
      · simp [hbe, hae, h]
      · simp [hbe, hae, h]

/-- C5 counterexample: with an empty book and trade window `[30]` for
RAINFOREST_RESIN, only the trade average (30) is available, yet the fair
value is `(10 + 30) / 2 = 20`, not 30: the code averages the *constant
default* with the trade average instead of falling back to the available
signal alone. -/
theorem fair_value_fallback_cex :
    fairPrice "RAINFOREST_RESIN" [] [] [30] = 20 ∧
      fairPrice "RAINFOREST_RESIN" [] [] [30] ≠ 30 := by
  have hd : sweepDefault "RAINFOREST_RESIN" = 10 := by
    rw [sweepDefault, if_neg (by decide)]
  constructor <;>
    norm_num [fairPrice, bookFair, bestBidOpt, bestAskOpt, listAvg, hd]

/-- C5 (amended): the fair value is `(book_mid + trade_avg) / 2` when the book
mid is available (both sides non-empty with nonzero best prices) and the
window is non-empty; `book_mid` alone when the window is empty; and when the
book mid is *unavailable* the constant default takes its place — so the fair
value is `(default + trade_avg) / 2` with a non-empty window (not the trade
average alone, see `fair_value_fallback_cex`) and the default with an empty
window. -/
theorem fair_value_cases :
    (∀ (product : String) (bids asks : List (Int × Int)) (window : List Int),
      bids ≠ [] → asks ≠ [] → keyMax bids ≠ 0 → keyMin asks ≠ 0 → window ≠ [] →
      fairPrice product bids asks window =
        (((keyMax bids + keyMin asks : Int) : ℚ) / 2 + listAvg window) / 2) ∧
    (∀ (product : String) (bids asks : List (Int × Int)),
      bids ≠ [] → asks ≠ [] → keyMax bids ≠ 0 → keyMin asks ≠ 0 →
      fairPrice product bids asks [] = ((keyMax bids + keyMin asks : Int) : ℚ) / 2) ∧
    (∀ (product : String) (bids asks : List (Int × Int)) (window : List Int),
      (bids = [] ∨ asks = [] ∨ keyMax bids = 0 ∨ keyMin asks = 0) → window ≠ [] →
      fairPrice product bids asks window = (sweepDefault product + listAvg window) / 2) ∧
    (∀ (product : String) (bids asks : List (Int × Int)),
      (bids = [] ∨ asks = [] ∨ keyMax bids = 0 ∨ keyMin asks = 0) →
      fairPrice product bids asks [] = sweepDefault product) := by
  refine ⟨?_, ?_, ?_, ?_⟩
  · intro product bids asks window hb ha hb0 ha0 hw
    rw [fairPrice, if_neg hw, bookFair_of_avail product bids asks hb ha hb0 ha0]
  · intro product bids asks hb ha hb0 ha0
    rw [fairPrice, if_pos rfl, bookFair_of_avail product bids asks hb ha hb0 ha0]
  · intro product bids asks window h hw
    rw [fairPrice, if_neg hw, bookFair_of_unavail product bids asks h]
  · intro product bids asks h
    rw [fairPrice, if_pos rfl, bookFair_of_unavail product bids asks h]

/-- Witness for C5 (amended): both-available and neither-available cases at
concrete inputs. -/
theorem fair_value_cases_witness :
    fairPrice "X" [(9, 1)] [(11, -1)] [10] =
      (((keyMax [(9, 1)] + keyMin [(11, -1)] : Int) : ℚ) / 2 + listAvg [10]) / 2 ∧
      fairPrice "X" [] [] [] = sweepDefault "X" :=
  ⟨fair_value_cases.1 "X" [(9, 1)] [(11, -1)] [10]
      (by decide) (by decide) (by decide) (by decide) (by decide),
   fair_value_cases.2.2.2 "X" [] [] (Or.inl rfl)⟩

/-- C10: a book side whose best price is 0 is treated exactly like a missing
side — with both sides non-empty but `best_bid = 0` or `best_ask = 0`
(Python truthiness), the book midpoint is replaced by the product default
(100 for KELP, 10 otherwise) and the spread by the constant 100. -/
theorem zero_price_default (product : String) (bids asks : List (Int × Int))
    (_hb : bids ≠ []) (_ha : asks ≠ []) (h0 : keyMax bids = 0 ∨ keyMin asks = 0) :
    bookFair product bids asks = (if product = "KELP" then 100 else 10) ∧
      sweepSpread bids asks = 100 := by
  constructor
  · rw [bookFair_of_unavail product bids asks (by tauto), sweepDefault]
  · exact sweepSpread_of_unavail bids asks (by tauto)

/-- Witness for C10: a non-empty bid side whose best price is 0. -/
theorem zero_price_default_witness :
    bookFair "X" [(0, 3)] [(5, -2)] = (if "X" = "KELP" then (100 : ℚ) else 10) ∧
      sweepSpread [(0, 3)] [(5, -2)] = 100 :=
  zero_price_default "X" [(0, 3)] [(5, -2)] (by decide) (by decide) (Or.inl (by decide))


/-- `sumQty` of the empty order list. -/
theorem sumQty_nil : sumQty [] = 0 := rfl

/-- `sumQty` over a cons. -/
theorem sumQty_cons (o : Order) (l : List Order) :
    sumQty (o :: l) = o.quantity + sumQty l := by
  simp [sumQty]

/-- `sumQty` is additive across concatenation. -/
theorem sumQty_append (l1 l2 : List Order) :
    sumQty (l1 ++ l2) = sumQty l1 + sumQty l2 := by
  simp [sumQty]

/-- C6 counterexample: with the real behavior of `jsonpickle.decode` on a
non-JSON token (it raises), the failure propagates out of `Trader.run` of
`src/trader.py` — there is no exception handler around the decode call, so
the claim that no parse failure escapes `run` is false. -/
theorem parse_failure_propagates_cex :
    sweepRun failingDecode garbageState = Except.error () := rfl

/-- C6 (amended): an absent (empty) carry token starts the tick from the
fresh empty memory and proceeds normally, whatever the parser would do; but
a *non-empty* token on which the parser fails propagates that failure out of
`run` unchanged — malformed tokens are not recovered. -/
theorem carry_state_recovery :
    (∀ (decode : String → Except Unit (List (String × SweepMem))) (state : TradingState),
      state.traderData = "" → sweepRun decode state = sweepFromMemory [] state) ∧
    (∀ (decode : String → Except Unit (List (String × SweepMem))) (state : TradingState)
       (e : Unit), state.traderData ≠ "" → decode state.traderData = Except.error e →
      sweepRun decode state = Except.error e) := by
  constructor
  · intro decode state h
    rw [sweepRun, if_pos h]
  · intro decode state e hne hd
    rw [sweepRun, if_neg hne, hd]

/-- Witness for C6 (amended): the empty-token snapshot completes from fresh
memory even under an always-failing parser, and the `"garbage"` token's parse
failure escapes. -/
theorem carry_state_recovery_witness :
    sweepRun failingDecode emptyState = sweepFromMemory [] emptyState ∧
      sweepRun failingDecode garbageState = Except.error () :=
  ⟨carry_state_recovery.1 failingDecode emptyState rfl,
   carry_state_recovery.2 failingDecode garbageState () (by decide) rfl⟩

/-- Combined invariants of the buy loop: the returned position is the start
plus the net emitted quantity, never decreases, stays at or below the limit
when it started there, and every emitted quantity is strictly positive. -/
theorem sweepBuyLoop_spec (product : String) (fair thr : ℚ) (limit : Int)
    (l : List (Int × Int)) : ∀ pos : Int,
    (sweepBuyLoop product fair thr limit l pos).2 =
        pos + sumQty (sweepBuyLoop product fair thr limit l pos).1 ∧
      pos ≤ (sweepBuyLoop product fair thr limit l pos).2 ∧
      (pos ≤ limit → (sweepBuyLoop product fair thr limit l pos).2 ≤ limit) ∧
      ∀ o ∈ (sweepBuyLoop product fair thr limit l pos).1, 0 < o.quantity := by
  induction l with
  | nil =>
    intro pos
    simp [sweepBuyLoop, sumQty_nil]
  | cons x rest ih =>
    intro pos
    obtain ⟨price, vol⟩ := x
    by_cases hc : (price : ℚ) < fair - thr
    · by_cases hv : 0 < min (-vol) (limit - pos)
      · have ih' := ih (pos + min (-vol) (limit - pos))
        simp only [sweepBuyLoop, if_pos hc, if_pos hv, sumQty_cons] at *
        refine ⟨by omega, by omega, by omega, ?_⟩
        intro o ho
        rcases List.mem_cons.mp ho with h | h
        · subst h; simpa using hv
        · exact ih'.2.2.2 o h
      · have ih' := ih pos
        simp only [sweepBuyLoop, if_pos hc, if_neg hv] at *
        exact ih'
    · have ih' := ih pos
      simp only [sweepBuyLoop, if_neg hc] at *
      exact ih'

/-- Combined invariants of the sell loop: the returned position is the start
plus the net emitted quantity, never increases, stays at or above the short
limit when it started there, and every emitted quantity is strictly
negative. -/
theorem sweepSellLoop_spec (product : String) (fair thr : ℚ) (limit : Int)
    (l : List (Int × Int)) : ∀ pos : Int,
    (sweepSellLoop product fair thr limit l pos).2 =
        pos + sumQty (sweepSellLoop product fair thr limit l pos).1 ∧
      (sweepSellLoop product fair thr limit l pos).2 ≤ pos ∧
      (-limit ≤ pos → -limit ≤ (sweepSellLoop product fair thr limit l pos).2) ∧
      ∀ o ∈ (sweepSellLoop product fair thr limit l pos).1, o.quantity < 0 := by
  induction l with
  | nil =>
    intro pos
    simp [sweepSellLoop, sumQty_nil]
  | cons x rest ih =>
    intro pos
    obtain ⟨price, vol⟩ := x
    by_cases hc : fair + thr < (price : ℚ)
    · by_cases hv : 0 < min vol (pos + limit)
      · have ih' := ih (pos - min vol (pos + limit))
        simp only [sweepSellLoop, if_pos hc, if_pos hv, sumQty_cons] at *
        refine ⟨by omega, by omega, by omega, ?_⟩
        intro o ho
        rcases List.mem_cons.mp ho with h | h
        · subst h; simpa using hv
        · exact ih'.2.2.2 o h
      · have ih' := ih pos
        simp only [sweepSellLoop, if_pos hc, if_neg hv] at *
        exact ih'
    · have ih' := ih pos
      simp only [sweepSellLoop, if_neg hc] at *
      exact ih'

/-- Combined invariants of the RESIN bid-band loop: final position accounting,
monotonicity, the long limit, strictly positive quantities, growth of the
used-price set, and freshness/distinctness of the emitted price levels. -/
theorem resinBuys_spec (symbol : String) (size : Int) (hsize : 0 < size)
    (l : List Int) : ∀ (pos : Int) (used : List Int),
    (resinBuys symbol size l pos used).2.1 =
        pos + sumQty (resinBuys symbol size l pos used).1 ∧
      pos ≤ (resinBuys symbol size l pos used).2.1 ∧
      (pos ≤ T2_POSITION_LIMIT →
        (resinBuys symbol size l pos used).2.1 ≤ T2_POSITION_LIMIT) ∧
      (∀ o ∈ (resinBuys symbol size l pos used).1, 0 < o.quantity) ∧
      (∀ p ∈ used, p ∈ (resinBuys symbol size l pos used).2.2) ∧
      (pricesOf (resinBuys symbol size l pos used).1).Nodup ∧
      (∀ p ∈ pricesOf (resinBuys symbol size l pos used).1,
        p ∉ used ∧ p ∈ (resinBuys symbol size l pos used).2.2) := by
  induction l with
  | nil =>
    intro pos used
    simp [resinBuys, sumQty_nil, pricesOf]
  | cons price rest ih =>
    intro pos used
    by_cases hc : pos < T2_POSITION_LIMIT ∧ price ∉ used
    · have ih' := ih (pos + min size (T2_POSITION_LIMIT - pos)) (price :: used)
      simp only [resinBuys, if_pos hc, sumQty_cons, pricesOf, List.map_cons] at *
      obtain ⟨e1, e2, e3, e4, e5, e6, e7⟩ := ih'
      obtain ⟨hc1, hc2⟩ := hc
      refine ⟨by omega, by omega, by omega, ?_, ?_, ?_, ?_⟩
      · intro o ho
        rcases List.mem_cons.mp ho with hh | hh
        · subst hh
          simp only
          omega
        · exact e4 o hh
      · intro p hp
        exact e5 p (List.mem_cons_of_mem _ hp)
      · rw [List.nodup_cons]
        exact ⟨fun hmem => (e7 price hmem).1 (List.mem_cons_self _ _), e6⟩
      · intro p hp
        rcases List.mem_cons.mp hp with hh | hh
        · subst hh
          exact ⟨hc2, e5 p (List.mem_cons_self _ _)⟩
        · obtain ⟨hnot, hin⟩ := e7 p hh
          exact ⟨fun hused => hnot (List.mem_cons_of_mem _ hused), hin⟩
    · have ih' := ih pos used
      simp only [resinBuys, if_neg hc] at *
      exact ih'

/-- Combined invariants of the RESIN ask-band loop, symmetric against the
short side of the limit (strictly negative quantities). -/
theorem resinSells_spec (symbol : String) (size : Int) (hsize : 0 < size)
    (l : List Int) : ∀ (pos : Int) (used : List Int),
    (resinSells symbol size l pos used).2.1 =
        pos + sumQty (resinSells symbol size l pos used).1 ∧
      (resinSells symbol size l pos used).2.1 ≤ pos ∧
      (-T2_POSITION_LIMIT ≤ pos →
        -T2_POSITION_LIMIT ≤ (resinSells symbol size l pos used).2.1) ∧
      (∀ o ∈ (resinSells symbol size l pos used).1, o.quantity < 0) ∧
      (∀ p ∈ used, p ∈ (resinSells symbol size l pos used).2.2) ∧
      (pricesOf (resinSells symbol size l pos used).1).Nodup ∧
      (∀ p ∈ pricesOf (resinSells symbol size l pos used).1,
        p ∉ used ∧ p ∈ (resinSells symbol size l pos used).2.2) := by
  induction l with
  | nil =>
    intro pos used
    simp [resinSells, sumQty_nil, pricesOf]
  | cons price rest ih =>
    intro pos used
    by_cases hc : -T2_POSITION_LIMIT < pos ∧ price ∉ used
    · have ih' := ih (pos - min size (T2_POSITION_LIMIT + pos)) (price :: used)
      simp only [resinSells, if_pos hc, sumQty_cons, pricesOf, List.map_cons] at *
      obtain ⟨e1, e2, e3, e4, e5, e6, e7⟩ := ih'
      obtain ⟨hc1, hc2⟩ := hc
      refine ⟨by omega, by omega, by omega, ?_, ?_, ?_, ?_⟩
      · intro o ho
        rcases List.mem_cons.mp ho with hh | hh
        · subst hh
          simp only
          omega
        · exact e4 o hh
      · intro p hp
        exact e5 p (List.mem_cons_of_mem _ hp)
      · rw [List.nodup_cons]
        exact ⟨fun hmem => (e7 price hmem).1 (List.mem_cons_self _ _), e6⟩
      · intro p hp
        rcases List.mem_cons.mp hp with hh | hh
        · subst hh
          exact ⟨hc2, e5 p (List.mem_cons_self _ _)⟩
        · obtain ⟨hnot, hin⟩ := e7 p hh
          exact ⟨fun hused => hnot (List.mem_cons_of_mem _ hused), hin⟩
    · have ih' := ih pos used
      simp only [resinSells, if_neg hc] at *
      exact ih'

/-- Every configured position limit is 20. -/
theorem positionLimits_all_20 : ∀ (p : String) (l : Int),
    lookupStr POSITION_LIMITS p = some l → l = 20 := by
  intro p l h
  by_cases h1 : (("KELP" : String) == p) = true
  · simp [POSITION_LIMITS, lookupStr, List.find?, h1] at h
    omega
  · by_cases h2 : (("RAINFOREST_RESIN" : String) == p) = true
    · simp [POSITION_LIMITS, lookupStr, List.find?, h1, h2] at h
      omega
    · simp [POSITION_LIMITS, lookupStr, List.find?, h1, h2] at h

/-- The sweep engine's per-product order list keeps the optimistically
updated position inside `[-limit, limit]` whenever it starts there. -/
theorem sweepProductOrders_bound (product : String) (limit : Int)
    (bids asks : List (Int × Int)) (window : List Int) (pos : Int)
    (h : |pos| ≤ limit) :
    |pos + sumQty (sweepProductOrders product limit bids asks window pos)| ≤ limit := by
  rw [abs_le] at h
  rw [abs_le]
  simp only [sweepProductOrders]
  rw [sumQty_append]
  have hb := sweepBuyLoop_spec product (fairPrice product bids asks window)
    (if sweepSpread bids asks < 5 then (1 : ℚ)/2 else 1) limit (sortAsc asks) pos
  have hs := sweepSellLoop_spec product (fairPrice product bids asks window)
    (if sweepSpread bids asks < 5 then (1 : ℚ)/2 else 1) limit (sortDesc bids)
    (sweepBuyLoop product (fairPrice product bids asks window)
      (if sweepSpread bids asks < 5 then (1 : ℚ)/2 else 1) limit (sortAsc asks) pos).2
  obtain ⟨hb1, hb2, hb3, -⟩ := hb
  obtain ⟨hs1, hs2, hs3, -⟩ := hs
  have hb3' := hb3 (by omega)
  have hs3' := hs3 (by omega)
  omega

/-- trader2's per-product order list keeps the optimistically updated
position inside `[-20, 20]` whenever it starts there, in every branch:
horizon unwind, KELP momentum/relief, RESIN bands, unknown symbols. -/
theorem t2RunProduct_bound (timestamp : Int) (symbol : String)
    (depth : OrderDepth) (pos : Int) (mids : List ℚ) (used : List Int)
    (h : |pos| ≤ 20) :
    |pos + sumQty (t2RunProduct timestamp symbol depth pos mids used).1| ≤ 20 := by
  have hT2 : T2_POSITION_LIMIT = 20 := rfl
  rw [abs_le] at h
  rw [abs_le]
  simp only [t2RunProduct]
  split_ifs <;> dsimp only <;>
    first
      | (simp only [sumQty_append, sumQty_cons, sumQty_nil]; omega)
      | skip
  case _ =>
    have hb := resinBuys_spec symbol 8 (by decide) [9995, 9996] pos used
    have hs := resinSells_spec symbol 8 (by decide) [10004, 10005]
      (resinBuys symbol 8 [9995, 9996] pos used).2.1
      (resinBuys symbol 8 [9995, 9996] pos used).2.2
    obtain ⟨hb1, hb2, hb3, -⟩ := hb
    obtain ⟨hs1, hs2, hs3, -⟩ := hs
    have hb3' := hb3 (by omega)
    have hs3' := hs3 (by omega)
    rw [sumQty_append]
    omega
  case _ =>
    have hb := resinBuys_spec symbol 5 (by decide) [9996, 9997] pos used
    have hs := resinSells_spec symbol 5 (by decide) [10003, 10004]
      (resinBuys symbol 5 [9996, 9997] pos used).2.1
      (resinBuys symbol 5 [9996, 9997] pos used).2.2
    obtain ⟨hb1, hb2, hb3, -⟩ := hb
    obtain ⟨hs1, hs2, hs3, -⟩ := hs
    have hb3' := hb3 (by omega)
    have hs3' := hs3 (by omega)
    rw [sumQty_append]
    omega
  case _ =>
    have hb := resinBuys_spec symbol 3 (by decide) [9998] pos used
    have hs := resinSells_spec symbol 3 (by decide) [10002]
      (resinBuys symbol 3 [9998] pos used).2.1
      (resinBuys symbol 3 [9998] pos used).2.2
    obtain ⟨hb1, hb2, hb3, -⟩ := hb
    obtain ⟨hs1, hs2, hs3, -⟩ := hs
    have hb3' := hb3 (by omega)
    have hs3' := hs3 (by omega)
    rw [sumQty_append]
    omega

/-- C1: for every tick and every product, applying every emitted order
optimistically (fully filled, in emission order) to the snapshot's
authoritative position keeps `|position| ≤ position_limit`; the configured
limit is 20 for every traded product.  Stated for both engines the claim
cites: the sweep engine (`src/trader.py`, via `sweepRunProduct`) and trader2
(`t2RunProduct`, all branches). -/
theorem position_limit_invariant :
    (∀ (p : String) (l : Int), lookupStr POSITION_LIMITS p = some l → l = 20) ∧
    (∀ (product : String) (depth : OrderDepth) (tradePrices : List Int)
       (mem : SweepMem) (pos : Int) (orders : List Order) (mem' : SweepMem),
      sweepRunProduct product depth tradePrices mem pos = some (orders, mem') →
      |pos| ≤ 20 → |pos + sumQty orders| ≤ 20) ∧
    (∀ (timestamp : Int) (symbol : String) (depth : OrderDepth) (pos : Int)
       (mids : List ℚ) (used : List Int),
      |pos| ≤ 20 →
      |pos + sumQty (t2RunProduct timestamp symbol depth pos mids used).1| ≤ 20) := by
  refine ⟨positionLimits_all_20, ?_, ?_⟩
  · intro product depth tradePrices mem pos orders mem' hrun hpos
    unfold sweepRunProduct at hrun
    cases hl : lookupStr POSITION_LIMITS product with
    | none =>
      rw [hl] at hrun
      exact absurd hrun (by simp)
    | some limit =>
      rw [hl] at hrun
      have h20 := positionLimits_all_20 product limit hl
      subst h20
      dsimp only at hrun
      simp only [Option.some.injEq, Prod.mk.injEq] at hrun
      obtain ⟨ho, -⟩ := hrun
      rw [← ho]
      exact sweepProductOrders_bound product 20 depth.buy_orders depth.sell_orders
        (dequeExtend HISTORY_LENGTH mem.recentPrices tradePrices) pos hpos
  · intro timestamp symbol depth pos mids used hpos
    exact t2RunProduct_bound timestamp symbol depth pos mids used hpos

/-- Witness for C1: the sweep engine on an empty KELP book from position 5,
and trader2's KELP unwind from position 0. -/
theorem position_limit_invariant_witness :
    |(5 : Int) + sumQty []| ≤ 20 ∧
      |(0 : Int) + sumQty (t2RunProduct 1000 "KELP" kelpDepth 0 [] []).1| ≤ 20 :=
  ⟨position_limit_invariant.2.1 "KELP" ⟨[], []⟩ [] ⟨[], 0, 0⟩ 5 [] ⟨[], 0, 0⟩
      (by decide) (by decide),
   position_limit_invariant.2.2 1000 "KELP" kelpDepth 0 [] [] (by decide)⟩

/-- trader2 never emits a zero-quantity order, in any branch. -/
theorem t2RunProduct_qty_nonzero (timestamp : Int) (symbol : String)
    (depth : OrderDepth) (pos : Int) (mids : List ℚ) (used : List Int) :
    ∀ o ∈ (t2RunProduct timestamp symbol depth pos mids used).1, o.quantity ≠ 0 := by
  have hT2 : T2_POSITION_LIMIT = 20 := rfl
  simp only [t2RunProduct]
  split_ifs <;> dsimp only <;> intro o ho <;>
    simp only [List.mem_append, List.mem_singleton, List.not_mem_nil, or_false,
      false_or] at ho <;>
    first
      | exact ho.elim
      | (obtain rfl := ho; simp only; omega)
      | (obtain rfl | rfl := ho <;> simp only <;> omega)
      | skip
  case _ =>
    have hb4 := (resinBuys_spec symbol 8 (by decide) [9995, 9996] pos used).2.2.2.1
    have hs4 := (resinSells_spec symbol 8 (by decide) [10004, 10005]
      (resinBuys symbol 8 [9995, 9996] pos used).2.1
      (resinBuys symbol 8 [9995, 9996] pos used).2.2).2.2.2.1
    rcases ho with ho | ho
    · have := hb4 o ho
      omega
    · have := hs4 o ho
      omega
  case _ =>
    have hb4 := (resinBuys_spec symbol 5 (by decide) [9996, 9997] pos used).2.2.2.1
    have hs4 := (resinSells_spec symbol 5 (by decide) [10003, 10004]
      (resinBuys symbol 5 [9996, 9997] pos used).2.1
      (resinBuys symbol 5 [9996, 9997] pos used).2.2).2.2.2.1
    rcases ho with ho | ho
    · have := hb4 o ho
      omega
    · have := hs4 o ho
      omega
  case _ =>
    have hb4 := (resinBuys_spec symbol 3 (by decide) [9998] pos used).2.2.2.1
    have hs4 := (resinSells_spec symbol 3 (by decide) [10002]
      (resinBuys symbol 3 [9998] pos used).2.1
      (resinBuys symbol 3 [9998] pos used).2.2).2.2.2.1
    rcases ho with ho | ho
    · have := hb4 o ho
      omega
    · have := hs4 o ho
      omega

/-- C9: every order any of the three engines emits has nonzero quantity —
buy-loop quantities are guarded by `volume > 0` checks or `min` bounds with a
strictly positive floor, sells symmetrically, and the unwinds fire only on
nonzero positions. -/
theorem orders_nonzero :
    (∀ (product : String) (limit : Int) (bids asks : List (Int × Int))
       (window : List Int) (pos : Int),
      ∀ o ∈ sweepProductOrders product limit bids asks window pos, o.quantity ≠ 0) ∧
    (∀ (timestamp : Int) (symbol : String) (depth : OrderDepth) (pos : Int)
       (mids : List ℚ) (used : List Int),
      ∀ o ∈ (t2RunProduct timestamp symbol depth pos mids used).1, o.quantity ≠ 0) ∧
    (∀ (symbol : String) (depth : OrderDepth) (pos : Int),
      ∀ o ∈ mmRunProduct symbol depth pos, o.quantity ≠ 0) := by
  refine ⟨?_, t2RunProduct_qty_nonzero, ?_⟩
  · intro product limit bids asks window pos
    simp only [sweepProductOrders]
    intro o ho
    rw [List.mem_append] at ho
    have hb4 := (sweepBuyLoop_spec product (fairPrice product bids asks window)
      (if sweepSpread bids asks < 5 then (1 : ℚ)/2 else 1) limit (sortAsc asks) pos).2.2.2
    have hs4 := (sweepSellLoop_spec product (fairPrice product bids asks window)
      (if sweepSpread bids asks < 5 then (1 : ℚ)/2 else 1) limit (sortDesc bids)
      (sweepBuyLoop product (fairPrice product bids asks window)
        (if sweepSpread bids asks < 5 then (1 : ℚ)/2 else 1) limit
        (sortAsc asks) pos).2).2.2.2
    rcases ho with ho | ho
    · have := hb4 o ho
      omega
    · have := hs4 o ho
      omega
  · intro symbol depth pos
    simp only [mmRunProduct]
    split_ifs <;> intro o ho <;>
      simp only [List.mem_append, List.mem_singleton, List.not_mem_nil, or_false,
        false_or] at ho <;>
      first
        | exact ho.elim
        | (obtain rfl := ho; simp only; omega)
        | (obtain rfl | rfl := ho <;> simp only <;> omega)

/-- `pricesOf` distributes over concatenation. -/
theorem pricesOf_append (l1 l2 : List Order) :
    pricesOf (l1 ++ l2) = pricesOf l1 ++ pricesOf l2 := by
  simp [pricesOf]

/-- C4 counterexample: the symmetric market-maker of
`src/prosperity-local/trader.py` with book `{bid: {100: 5}, ask: {102: -5}}`
and position 0 (spread 2 > 1) posts a buy at `best_bid + 1 = 101` *and* a
sell at `best_ask − 1 = 101`: two orders for the same product at the same
price in one tick. -/
theorem duplicate_price_cex :
    pricesOf (mmRunProduct "KELP" ⟨[(100, 5)], [(102, -5)]⟩ 0) = [101, 101] ∧
      ¬ (pricesOf (mmRunProduct "KELP" ⟨[(100, 5)], [(102, -5)]⟩ 0)).Nodup := by
  constructor <;> decide

/-- C4 (amended): the duplicate-price guard holds where the used-price set is
actually maintained — the RAINFOREST_RESIN passive-banding path of trader2:
for every tick (any timestamp, book, position, deque, residual set) the RESIN
orders carry pairwise distinct prices.  The symmetric-quote paths can emit a
buy and a sell at the same price (`duplicate_price_cex`). -/
theorem resin_prices_nodup (timestamp : Int) (depth : OrderDepth) (pos : Int)
    (mids : List ℚ) (used : List Int) :
    (pricesOf (t2RunProduct timestamp "RAINFOREST_RESIN" depth pos mids used).1).Nodup := by
  simp only [t2RunProduct]
  split_ifs <;> dsimp only <;>
    first
      | exact absurd ‹("RAINFOREST_RESIN" : String) = "KELP"› (by decide)
      | (simp [pricesOf]; done)
      | skip
  case _ =>
    have hb := resinBuys_spec "RAINFOREST_RESIN" 8 (by decide) [9995, 9996] pos used
    have hs := resinSells_spec "RAINFOREST_RESIN" 8 (by decide) [10004, 10005]
      (resinBuys "RAINFOREST_RESIN" 8 [9995, 9996] pos used).2.1
      (resinBuys "RAINFOREST_RESIN" 8 [9995, 9996] pos used).2.2
    rw [pricesOf_append]
    refine List.Nodup.append hb.2.2.2.2.2.1 hs.2.2.2.2.2.1 ?_
    intro p hp1 hp2
    exact (hs.2.2.2.2.2.2 p hp2).1 (hb.2.2.2.2.2.2 p hp1).2
  case _ =>
    have hb := resinBuys_spec "RAINFOREST_RESIN" 5 (by decide) [9996, 9997] pos used
    have hs := resinSells_spec "RAINFOREST_RESIN" 5 (by decide) [10003, 10004]
      (resinBuys "RAINFOREST_RESIN" 5 [9996, 9997] pos used).2.1
      (resinBuys "RAINFOREST_RESIN" 5 [9996, 9997] pos used).2.2
    rw [pricesOf_append]
    refine List.Nodup.append hb.2.2.2.2.2.1 hs.2.2.2.2.2.1 ?_
    intro p hp1 hp2
    exact (hs.2.2.2.2.2.2 p hp2).1 (hb.2.2.2.2.2.2 p hp1).2
  case _ =>
    have hb := resinBuys_spec "RAINFOREST_RESIN" 3 (by decide) [9998] pos used
    have hs := resinSells_spec "RAINFOREST_RESIN" 3 (by decide) [10002]
      (resinBuys "RAINFOREST_RESIN" 3 [9998] pos used).2.1
      (resinBuys "RAINFOREST_RESIN" 3 [9998] pos used).2.2
    rw [pricesOf_append]
    refine List.Nodup.append hb.2.2.2.2.2.1 hs.2.2.2.2.2.1 ?_
    intro p hp1 hp2
    exact (hs.2.2.2.2.2.2 p hp2).1 (hb.2.2.2.2.2.2 p hp1).2

/-- C7: past the 950000 horizon, for either traded product with both book
sides non-empty and a nonzero position, trader2 emits exactly one order — a
sell of the whole positive position at the best ask, or a buy of the whole
negative position's magnitude at the best bid — and applying it zeroes the
position (so no post-horizon order increases `|position|`). -/
theorem horizon_unwind (timestamp : Int) (symbol : String) (depth : OrderDepth)
    (pos : Int) (mids : List ℚ) (used : List Int)
    (ht : 950000 < timestamp) (hb : depth.buy_orders ≠ [])
    (ha : depth.sell_orders ≠ []) (hpos : pos ≠ 0)
    (hsym : symbol = "KELP" ∨ symbol = "RAINFOREST_RESIN") :
    (t2RunProduct timestamp symbol depth pos mids used).1 =
      [⟨symbol,
        if 0 < pos then keyMin depth.sell_orders else keyMax depth.buy_orders,
        -pos⟩] ∧
      pos + sumQty (t2RunProduct timestamp symbol depth pos mids used).1 = 0 := by
  have hbe : depth.buy_orders.isEmpty = false := by
    cases hdb : depth.buy_orders with
    | nil => exact absurd hdb hb
    | cons x l => rfl
  have hae : depth.sell_orders.isEmpty = false := by
    cases hda : depth.sell_orders with
    | nil => exact absurd hda ha
    | cons x l => rfl
  have hemp : ¬ (depth.buy_orders.isEmpty = true ∨ depth.sell_orders.isEmpty = true) := by
    rw [hbe, hae]
    simp
  rcases hsym with rfl | rfl <;>
    simp only [t2RunProduct, if_neg hemp] <;>
    split_ifs <;> (try dsimp only) <;>
      first
        | (exact absurd ‹("RAINFOREST_RESIN" : String) = "KELP"› (by decide))
        | (exact absurd rfl ‹¬("KELP" : String) = "KELP"›)
        | (exact absurd rfl ‹¬("RAINFOREST_RESIN" : String) = "RAINFOREST_RESIN"›)
        | (refine ⟨rfl, ?_⟩; simp only [sumQty_cons, sumQty_nil]; omega)
        | (exfalso; omega)

/-- Witness for C7: KELP at timestamp 960000 from position 7 — one sell of 7
at the best ask. -/
theorem horizon_unwind_witness :
    (t2RunProduct 960000 "KELP" kelpDepth 7 [] []).1 =
      [⟨"KELP",
        if 0 < (7 : Int) then keyMin kelpDepth.sell_orders else keyMax kelpDepth.buy_orders,
        -7⟩] ∧
      (7 : Int) + sumQty (t2RunProduct 960000 "KELP" kelpDepth 7 [] []).1 = 0 :=
  horizon_unwind 960000 "KELP" kelpDepth 7 [] [] (by decide) (by decide) (by decide)
    (by decide) (Or.inl rfl)

/-- Concrete KELP evaluation with a 90-heavy mid-price history: the tick's
mid of 100 is 9 above the average 91, so the momentum rule sells 5. -/
theorem t2RunProduct_c8A :
    (t2RunProduct 1000 "KELP" kelpDepth 0 (List.replicate 9 (90 : ℚ)) []).1 =
      [⟨"KELP", 100, -5⟩] := by
  norm_num [t2RunProduct, kelpDepth, keyMax, keyMin, dequeAppQ, qAvg,
    T2_POSITION_LIMIT, List.sum_append, List.sum_replicate, List.foldl]

/-- Concrete KELP evaluation with a flat mid-price history: the tick's mid of
100 equals the average, so no order is emitted. -/
theorem t2RunProduct_c8B :
    (t2RunProduct 1000 "KELP" kelpDepth 0 (List.replicate 9 (100 : ℚ)) []).1 = [] := by
  norm_num [t2RunProduct, kelpDepth, keyMax, keyMin, dequeAppQ, qAvg,
    T2_POSITION_LIMIT, List.sum_append, List.sum_replicate, List.foldl]

/-- The full-tick result of the 90-history run. -/
theorem t2Run_c8A :
    (t2Run c8StateA c8Snapshot).1 = [("KELP", [⟨"KELP", 100, -5⟩])] := by
  simp only [t2Run, t2Loop, c8Snapshot, c8StateA, emptyState, posGet, lookupStr,
    List.find?, Option.map, Option.getD]
  rw [t2RunProduct_c8A]
  simp

/-- The full-tick result of the 100-history run. -/
theorem t2Run_c8B : (t2Run c8StateB c8Snapshot).1 = [] := by
  simp only [t2Run, t2Loop, c8Snapshot, c8StateB, emptyState, posGet, lookupStr,
    List.find?, Option.map, Option.getD]
  rw [t2RunProduct_c8B]
  simp

/-- C8 counterexample: two trader2 runs on the *identical* snapshot with the
*identical* (empty) incoming `trader_data` token — trader2's token is always
empty, so the carry reconstructed from the token is the same — produce
different orders, because the KELP mid-price deque is hidden instance state
outside the token.  The determinism claim over `(snapshot, CarryState)` with
CarryState read from the token is therefore false. -/
theorem hidden_state_cex :
    t2Run c8StateA c8Snapshot ≠ t2Run c8StateB c8Snapshot := by
  intro h
  have h1 := congrArg Prod.fst h
  rw [t2Run_c8A, t2Run_c8B] at h1
  exact absurd h1 (by decide)

/-- C8 (amended): trader2 is deterministic as a function of the snapshot and
its *instance* state, and within the instance state only the KELP mid-price
deque matters — the residual per-tick RESIN price set is cleared at the top
of `run`, so two runs with the same snapshot and the same deque give
identical orders, conversions, outgoing token and final state regardless of
it.  What the claim misses is only that this deque lives outside the
`trader_data` token (`hidden_state_cex`). -/
theorem determinism_modulo_internal_state (mids : List ℚ) (r1 r2 : List Int)
    (state : TradingState) :
    t2Run ⟨mids, r1⟩ state = t2Run ⟨mids, r2⟩ state := rfl

/-- Witness for C9: the market-maker's buy order at 101 in the spread-2 book
has nonzero quantity. -/
theorem orders_nonzero_witness : (⟨"KELP", 101, 3⟩ : Order).quantity ≠ 0 :=
  orders_nonzero.2.2 "KELP" ⟨[(100, 5)], [(102, -5)]⟩ 0 ⟨"KELP", 101, 3⟩ (by decide)
